import Mathlib

/-!
Verification of the certificate-lifecycle subsystem of the `ghttp` repository.

The Go sources are embedded shallowly: pure helpers become Lean functions,
stateful operations become explicit state-passing functions, machine time is
modelled as `Int` (an abstract instant), byte strings as `String`, and
fallible operations return `Option`/`Except` values.  Each definition is
translated from the corresponding Go function; where the repository ships
only tests and callers of a component, the component is modelled from the
specification text and its doc comment says so explicitly.
-/

namespace Ghttp

/-! ## CLI host sanitization (`cmd/ghttp/https_commands.go`, `sanitizeHosts`) -/

/-- Embeds Go `strings.TrimSpace` restricted to the whitespace characters of
the host strings handled by the CLI: leading and trailing whitespace runes
are removed. -/
def trimChars (l : List Char) : List Char :=
  ((l.dropWhile Char.isWhitespace).reverse.dropWhile Char.isWhitespace).reverse

/-- `strings.TrimSpace` on the `String` carrier. -/
def trimSpace (s : String) : String :=
  String.mk (trimChars s.data)

/-- Accumulator loop of `sanitizeHosts`: `seen` is the set of hosts already
emitted (the Go code's `seen` map). -/
def sanitizeHostsLoop (seen : List String) : List String → List String
  | [] => []
  | host :: rest =>
    let normalizedHost := trimSpace host
    if normalizedHost = "" then sanitizeHostsLoop seen rest
    else if normalizedHost ∈ seen then sanitizeHostsLoop seen rest
    else normalizedHost :: sanitizeHostsLoop (normalizedHost :: seen) rest

/-- Embeds `sanitizeHosts` from `cmd/ghttp/https_commands.go`: trim each
entry, drop entries that trim to empty, and drop duplicates keeping the
first occurrence. -/
def sanitizeHosts (hosts : List String) : List String :=
  sanitizeHostsLoop [] hosts

/-- Specification-side description of duplicate removal: keep the first
occurrence of each element and drop the later ones, preserving order. -/
def dedupKeepFirst : List String → List String
  | [] => []
  | h :: t => h :: dedupKeepFirst (t.filter (fun x => x ≠ h))
termination_by l => l.length
decreasing_by
  simp only [List.length_cons]
  exact Nat.lt_succ_of_le (List.length_filter_le _ _)

theorem dedupKeepFirst_nil : dedupKeepFirst [] = [] := by
  simp [dedupKeepFirst]

theorem dedupKeepFirst_cons (h : String) (t : List String) :
    dedupKeepFirst (h :: t) = h :: dedupKeepFirst (t.filter (fun x => x ≠ h)) := by
  simp [dedupKeepFirst]

theorem sanitizeHostsLoop_eq (seen : List String) (l : List String) :
    sanitizeHostsLoop seen l =
      dedupKeepFirst ((l.map trimSpace).filter (fun x => x ≠ "" ∧ x ∉ seen)) := by
  induction l generalizing seen with
  | nil => simp [sanitizeHostsLoop, dedupKeepFirst]
  | cons h t ih =>
    simp only [sanitizeHostsLoop, List.map_cons, List.filter_cons]
    by_cases hEmpty : trimSpace h = ""
    · simp [hEmpty, ih]
    · by_cases hSeen : trimSpace h ∈ seen
      · have : ¬ (trimSpace h ≠ "" ∧ trimSpace h ∉ seen) := by
          intro hcontra; exact hcontra.2 hSeen
        simp [hEmpty, hSeen, this, ih]
      · have hcond : decide (trimSpace h ≠ "" ∧ trimSpace h ∉ seen) = true := by
          simp [hEmpty, hSeen]
        rw [if_neg hEmpty, if_neg hSeen, if_pos hcond]
        rw [dedupKeepFirst_cons, ih (trimSpace h :: seen)]
        congr 1
        rw [List.filter_filter]
        congr 1
        apply List.filter_congr
        intro x _
        by_cases hx : x = trimSpace h
        · subst hx; simp
        · by_cases hxe : x = ""
          · simp [hxe]
          · by_cases hxs : x ∈ seen
            · simp [hxe, hxs, hx]
            · simp [hxe, hxs, hx]

theorem sanitizeHosts_eq (hosts : List String) :
    sanitizeHosts hosts =
      dedupKeepFirst ((hosts.map trimSpace).filter (fun x => x ≠ "")) := by
  rw [sanitizeHosts, sanitizeHostsLoop_eq]
  congr 1
  apply List.filter_congr
  intro x _
  simp

theorem trimChars_eq (l : List Char) :
    trimChars l =
      ((l.dropWhile Char.isWhitespace).reverse.dropWhile Char.isWhitespace).reverse := rfl

theorem dropWhile_self (p : α → Bool) (l : List α) :
    (l.dropWhile p).dropWhile p = l.dropWhile p := by
  cases h : l.dropWhile p with
  | nil => simp
  | cons a t =>
    have ha : p a = false := by
      have hw : l.dropWhile p ≠ [] := by simp [h]
      have := List.head_dropWhile_not p l hw
      rw [show (l.dropWhile p).head hw = a by simp [h]] at this
      exact this
    exact List.dropWhile_cons_of_neg (by simp [ha])

theorem trimChars_no_leading (l : List Char) :
    (trimChars l).dropWhile Char.isWhitespace = trimChars l := by
  have hpre : trimChars l <+: l.dropWhile Char.isWhitespace := by
    rw [trimChars_eq]
    have hsuf : (l.dropWhile Char.isWhitespace).reverse.dropWhile Char.isWhitespace
        <:+ (l.dropWhile Char.isWhitespace).reverse := List.dropWhile_suffix _
    have hrev := List.reverse_prefix.mpr hsuf
    rwa [List.reverse_reverse] at hrev
  cases hBr : trimChars l with
  | nil => simp
  | cons c cs =>
    rw [hBr] at hpre
    obtain ⟨t, ht⟩ := hpre
    have hc : Char.isWhitespace c = false := by
      have h3 := List.head?_dropWhile_not Char.isWhitespace l
      rw [← ht] at h3
      simpa using h3
    exact List.dropWhile_cons_of_neg (by simp [hc])

theorem trimChars_idem (l : List Char) :
    trimChars (trimChars l) = trimChars l := by
  rw [trimChars_eq (trimChars l), trimChars_no_leading l, trimChars_eq l,
    List.reverse_reverse, dropWhile_self]

theorem trimSpace_idem (s : String) : trimSpace (trimSpace s) = trimSpace s :=
  congrArg String.mk (trimChars_idem s.data)

theorem sanitizeHostsLoop_invariant (hosts : List String) :
    ∀ seen : List String,
      (∀ x ∈ sanitizeHostsLoop seen hosts,
        trimSpace x = x ∧ x ≠ "" ∧ x ∉ seen) ∧
      (sanitizeHostsLoop seen hosts).Nodup := by
  induction hosts with
  | nil => intro seen; simp [sanitizeHostsLoop]
  | cons h t ih =>
    intro seen
    simp only [sanitizeHostsLoop]
    by_cases hEmpty : trimSpace h = ""
    · simpa [hEmpty] using ih seen
    · by_cases hSeen : trimSpace h ∈ seen
      · simpa [hEmpty, hSeen] using ih seen
      · simp only [hEmpty, hSeen, if_neg, if_false]
        refine ⟨?_, ?_⟩
        · intro x hx
          rcases List.mem_cons.mp hx with hx | hx
          · subst hx
            exact ⟨trimSpace_idem h, hEmpty, hSeen⟩
          · obtain ⟨h1, h2, h3⟩ := (ih (trimSpace h :: seen)).1 x hx
            exact ⟨h1, h2, fun hmem => h3 (List.mem_cons_of_mem _ hmem)⟩
        · refine List.nodup_cons.mpr ⟨?_, (ih (trimSpace h :: seen)).2⟩
          intro hmem
          exact ((ih (trimSpace h :: seen)).1 _ hmem).2.2 (List.mem_cons_self _ _)

theorem sanitizeHostsLoop_fixed (hosts : List String) :
    ∀ seen : List String,
      (∀ x ∈ hosts, trimSpace x = x ∧ x ≠ "" ∧ x ∉ seen) →
      hosts.Nodup →
      sanitizeHostsLoop seen hosts = hosts := by
  induction hosts with
  | nil => intro seen _ _; simp [sanitizeHostsLoop]
  | cons h t ih =>
    intro seen hprops hnodup
    obtain ⟨hTrim, hNe, hNotSeen⟩ := hprops h (List.mem_cons_self _ _)
    simp only [sanitizeHostsLoop, hTrim, hNe, hNotSeen, if_neg, if_false]
    congr 1
    apply ih (h :: seen)
    · intro x hx
      obtain ⟨h1, h2, h3⟩ := hprops x (List.mem_cons_of_mem _ hx)
      refine ⟨h1, h2, ?_⟩
      intro hmem
      rcases List.mem_cons.mp hmem with hmem | hmem
      · exact (List.nodup_cons.mp hnodup).1 (hmem ▸ hx)
      · exact h3 hmem
    · exact (List.nodup_cons.mp hnodup).2

theorem sanitizeHosts_idem (hosts : List String) :
    sanitizeHosts (sanitizeHosts hosts) = sanitizeHosts hosts := by
  apply sanitizeHostsLoop_fixed
  · intro x hx
    obtain ⟨h1, h2, _⟩ := (sanitizeHostsLoop_invariant hosts []).1 x hx
    exact ⟨h1, h2, List.not_mem_nil x⟩
  · exact (sanitizeHostsLoop_invariant hosts []).2

/-! ## Certificate data model

The Go implementations of `CertificateAuthorityManager` and
`ServerCertificateIssuer` are not part of the source tree; only their
declarations, tests and callers are.  The definitions below marked
`Modelled from the spec:` therefore follow the specification text (§4.1 and
§4.2) rather than source code. -/

/-- X.509 subject fields configured for the certificate authority. -/
structure Subject where
  commonName : String
  organizationalUnit : String
  organization : String
deriving DecidableEq, Repr

/-- Abstract X.509 certificate: the fields the lifecycle logic inspects. -/
structure Certificate where
  serialNumber : Nat
  notBefore : Int
  notAfter : Int
  subject : Subject
  issuerSubject : Subject
  isCertificateAuthority : Bool
  dnsNames : List String
  ipAddresses : List String
deriving DecidableEq, Repr

/-- Abstract RSA key pair: the identifier records which draw of the random
source produced it. -/
structure RSAKey where
  keyId : Nat
  bitSize : Nat
deriving DecidableEq, Repr

/-- Embeds `CertificateAuthorityConfiguration` from the `certificates`
package (the struct literal is visible in the tests and callers). -/
structure CertificateAuthorityConfiguration where
  directoryPath : String
  certificateFileName : String
  privateKeyFileName : String
  directoryPermissions : Nat
  certificateFilePermissions : Nat
  privateKeyFilePermissions : Nat
  rsaKeyBitSize : Nat
  certificateValidityDuration : Int
  certificateRenewalWindowDuration : Int
  subjectCommonName : String
  subjectOrganizationalUnit : String
  subjectOrganization : String
deriving DecidableEq, Repr

/-- Embeds `CertificateAuthorityMaterial`: parsed certificate and key. -/
structure CertificateAuthorityMaterial where
  certificate : Certificate
  privateKey : RSAKey
deriving DecidableEq, Repr

/-- State threaded through `EnsureCertificateAuthority`: the parse outcome
of the two files (`none` = file missing, `some none` = present but
unparseable, `some (some v)` = parses to `v`), whether the configured
directory exists, and a counter advanced by every draw from the random
source. -/
structure CertificateAuthorityState where
  certificateFile : Option (Option Certificate)
  privateKeyFile : Option (Option RSAKey)
  directoryExists : Bool
  randomCounter : Nat
deriving DecidableEq, Repr

/-- Modelled from the spec: the regeneration branch of
`EnsureCertificateAuthority` (§4.1) — create the directory if absent,
generate a fresh RSA key pair from the injected random source, build a
self-signed certificate with a randomly generated serial number,
`NotBefore = now`, `NotAfter = now + validityDuration`, marked as a
certificate authority, and persist both files, overwriting prior ones. -/
def regenerateCertificateAuthority (configuration : CertificateAuthorityConfiguration)
    (now : Int) (state : CertificateAuthorityState) :
    CertificateAuthorityState × CertificateAuthorityMaterial :=
  let privateKey : RSAKey := ⟨state.randomCounter, configuration.rsaKeyBitSize⟩
  let subject : Subject := ⟨configuration.subjectCommonName,
    configuration.subjectOrganizationalUnit, configuration.subjectOrganization⟩
  let certificate : Certificate :=
    { serialNumber := state.randomCounter + 1
      notBefore := now
      notAfter := now + configuration.certificateValidityDuration
      subject := subject
      issuerSubject := subject
      isCertificateAuthority := true
      dnsNames := []
      ipAddresses := [] }
  ({ certificateFile := some (some certificate)
     privateKeyFile := some (some privateKey)
     directoryExists := true
     randomCounter := state.randomCounter + 2 },
   ⟨certificate, privateKey⟩)

/-- Modelled from the spec: `EnsureCertificateAuthority` (§4.1, the Go
implementation is missing from the source tree).  If both files exist and
parse successfully and `now + renewalWindow < certificate.NotAfter`, the
parsed material is returned unchanged (no disk writes, no new randomness
consumed); otherwise the certificate authority is regenerated. -/
def EnsureCertificateAuthority (configuration : CertificateAuthorityConfiguration)
    (now : Int) (state : CertificateAuthorityState) :
    CertificateAuthorityState × CertificateAuthorityMaterial :=
  match state.certificateFile, state.privateKeyFile with
  | some (some certificate), some (some privateKey) =>
    if now + configuration.certificateRenewalWindowDuration < certificate.notAfter then
      (state, ⟨certificate, privateKey⟩)
    else regenerateCertificateAuthority configuration now state
  | _, _ => regenerateCertificateAuthority configuration now state

/-! ## Server certificate issuer (spec-modelled, §4.2) -/

/-- Numeric value of a list of decimal digits. -/
def decimalValue (l : List Char) : Nat :=
  l.foldl (fun acc c => acc * 10 + (c.toNat - '0'.toNat)) 0

/-- Splits a character list on a separator character, like
`strings.Split`: `splitOnChar '.' "a.b"` gives the groups `a` and `b`,
empty groups included. -/
def splitOnChar (sep : Char) : List Char → List (List Char)
  | [] => [[]]
  | c :: rest =>
    if c = sep then [] :: splitOnChar sep rest
    else
      match splitOnChar sep rest with
      | [] => [[c]]
      | g :: gs => (c :: g) :: gs

/-- Splits a character list on each non-overlapping occurrence of the
two-character separator `::`, left to right, like `strings.Split`. -/
def splitOnColonColon : List Char → List (List Char)
  | [] => [[]]
  | ':' :: ':' :: rest => [] :: splitOnColonColon rest
  | c :: rest =>
    match splitOnColonColon rest with
    | [] => [[c]]
    | g :: gs => (c :: g) :: gs

/-- Modelled from the spec: one dotted-quad component of an IPv4 literal —
one to three decimal digits, no leading zero, value at most 255. -/
def isDecimalOctet (l : List Char) : Bool :=
  decide (l ≠ []) && decide (l.length ≤ 3) && l.all Char.isDigit &&
    (decide (l.length = 1) || decide (l.head? ≠ some '0')) &&
    decide (decimalValue l ≤ 255)

/-- Modelled from the spec: a syntactically valid IPv4 literal — four
decimal octets separated by dots. -/
def isIPv4Literal (s : String) : Bool :=
  match splitOnChar '.' s.data with
  | [a, b, c, d] => isDecimalOctet a && isDecimalOctet b && isDecimalOctet c && isDecimalOctet d
  | _ => false

/-- One hexadecimal group of an IPv6 literal: one to four hex digits. -/
def isHexGroup (l : List Char) : Bool :=
  decide (l ≠ []) && decide (l.length ≤ 4) &&
    l.all (fun c => c.isDigit || ('a' ≤ c && c ≤ 'f') || ('A' ≤ c && c ≤ 'F'))

/-- Modelled from the spec: a syntactically valid IPv6 literal — eight
colon-separated hexadecimal groups, or fewer groups around a single `::`
compression (embedded IPv4 tails and zone identifiers are outside the
host forms handled here). -/
def isIPv6Literal (s : String) : Bool :=
  match splitOnColonColon s.data with
  | [whole] =>
    let groups := splitOnChar ':' whole
    decide (groups.length = 8) && groups.all isHexGroup
  | [left, right] =>
    let leftGroups := if left = [] then [] else splitOnChar ':' left
    let rightGroups := if right = [] then [] else splitOnChar ':' right
    decide (leftGroups.length + rightGroups.length ≤ 7) &&
      leftGroups.all isHexGroup && rightGroups.all isHexGroup
  | _ => false

/-- Modelled from the spec (§4.2 edge case policy): hosts that are
syntactically valid IPv4/IPv6 literals go into the IP-address SAN list,
everything else into the DNS-name SAN list. -/
def isIPLiteral (host : String) : Bool :=
  isIPv4Literal host || isIPv6Literal host

/-- Embeds `ServerCertificateConfiguration` (shape visible in tests and
callers). -/
structure ServerCertificateConfiguration where
  certificateValidityDuration : Int
  certificateRenewalWindowDuration : Int
  leafPrivateKeyBitSize : Nat
  certificateFilePermissions : Nat
  privateKeyFilePermissions : Nat
deriving DecidableEq, Repr

/-- Embeds `ServerCertificateRequest`. -/
structure ServerCertificateRequest where
  hosts : List String
  certificateOutputPath : String
  privateKeyOutputPath : String
deriving DecidableEq, Repr

/-- Embeds `ServerCertificateMaterial`. -/
structure ServerCertificateMaterial where
  certificate : Certificate
  privateKey : RSAKey
deriving DecidableEq, Repr

/-- State threaded through `IssueServerCertificate`: the parse outcomes of
the leaf certificate and key at the requested output paths, plus the random
counter. -/
structure ServerCertificateState where
  certificateFile : Option (Option Certificate)
  privateKeyFile : Option (Option RSAKey)
  randomCounter : Nat
deriving DecidableEq, Repr

/-- ASCII lower-casing of a string, character by character (the host names
handled by the issuer are ASCII). -/
def toLowerString (s : String) : String :=
  String.mk (s.data.map Char.toLower)

/-- Modelled from the spec (§4.2, §9 design note): normalized host form for
the rotation decision — lower-cased DNS name, IP literal as written. -/
def normalizeHost (host : String) : String :=
  if isIPLiteral host then host else toLowerString host

/-- Modelled from the spec: order-insensitive, case-insensitive (for DNS
names) host-set equality. -/
def hostSetsEqual (a b : List String) : Bool :=
  (a.map normalizeHost).all (fun x => x ∈ b.map normalizeHost) &&
    (b.map normalizeHost).all (fun x => x ∈ a.map normalizeHost)

/-- The SAN set of a certificate: DNS names united with the string forms of
its IP addresses. -/
def certificateSanHosts (certificate : Certificate) : List String :=
  certificate.dnsNames ++ certificate.ipAddresses

/-- Modelled from the spec: the generation branch of
`IssueServerCertificate` — generate a new key, classify each host as IP or
DNS SAN, set `NotBefore = now`, `NotAfter = now + leafValidityDuration`,
assign a new random serial number, sign with the CA's certificate as
issuer, and persist both files at the requested paths. -/
def generateServerCertificate (configuration : ServerCertificateConfiguration)
    (now : Int) (certificateAuthority : CertificateAuthorityMaterial)
    (request : ServerCertificateRequest) (state : ServerCertificateState) :
    ServerCertificateState × ServerCertificateMaterial :=
  let privateKey : RSAKey := ⟨state.randomCounter, configuration.leafPrivateKeyBitSize⟩
  let certificate : Certificate :=
    { serialNumber := state.randomCounter + 1
      notBefore := now
      notAfter := now + configuration.certificateValidityDuration
      subject := ⟨"", "", ""⟩
      issuerSubject := certificateAuthority.certificate.subject
      isCertificateAuthority := false
      dnsNames := request.hosts.filter (fun h => !(isIPLiteral h))
      ipAddresses := request.hosts.filter isIPLiteral }
  ({ certificateFile := some (some certificate)
     privateKeyFile := some (some privateKey)
     randomCounter := state.randomCounter + 2 },
   ⟨certificate, privateKey⟩)

/-- Modelled from the spec: `IssueServerCertificate` (§4.2, the Go
implementation is missing from the source tree).  An empty host set is
rejected before any cryptographic work; an existing leaf is reused only
when it parses, its SAN set equals the request's host set
(order-insensitive, case-insensitive for DNS names), and
`now + renewalWindow < certificate.NotAfter`; otherwise a new certificate
is generated. -/
def IssueServerCertificate (configuration : ServerCertificateConfiguration)
    (now : Int) (certificateAuthority : CertificateAuthorityMaterial)
    (request : ServerCertificateRequest) (state : ServerCertificateState) :
    Except String (ServerCertificateState × ServerCertificateMaterial) :=
  if request.hosts.isEmpty then Except.error "at least one host must be specified"
  else
    match state.certificateFile, state.privateKeyFile with
    | some (some certificate), some (some privateKey) =>
      if hostSetsEqual (certificateSanHosts certificate) request.hosts &&
          decide (now + configuration.certificateRenewalWindowDuration <
            certificate.notAfter) then
        Except.ok (state, ⟨certificate, privateKey⟩)
      else
        Except.ok (generateServerCertificate configuration now certificateAuthority request state)
    | _, _ =>
      Except.ok (generateServerCertificate configuration now certificateAuthority request state)

theorem hostSetsEqual_of_perm (a b : List String) (h : a.Perm b) :
    hostSetsEqual a b = true := by
  have hmap : (a.map normalizeHost).Perm (b.map normalizeHost) := h.map normalizeHost
  simp only [hostSetsEqual, Bool.and_eq_true, List.all_eq_true]
  constructor
  · intro x hx
    simpa using hmap.mem_iff.mp (by simpa using hx)
  · intro x hx
    simpa using hmap.mem_iff.mpr (by simpa using hx)

theorem sanHosts_generate_perm (configuration : ServerCertificateConfiguration)
    (now : Int) (certificateAuthority : CertificateAuthorityMaterial)
    (request : ServerCertificateRequest) (state : ServerCertificateState) :
    (certificateSanHosts
        (generateServerCertificate configuration now certificateAuthority request
          state).2.certificate).Perm request.hosts := by
  unfold generateServerCertificate certificateSanHosts
  simp only []
  have hfilter : request.hosts.filter isIPLiteral =
      request.hosts.filter (fun h => !(!(isIPLiteral h))) := by
    apply List.filter_congr
    intro x _
    simp
  rw [hfilter]
  exact List.filter_append_perm (fun h => !(isIPLiteral h)) request.hosts

/-! ## Filesystem removal (`OperatingSystemFileSystem.Remove`) -/

/-- Error classification of the operating system errors surfaced by
`os.Remove`: either the path did not exist (`fs.ErrNotExist`) or some other
failure carrying a message. -/
inductive OSError
  | notExist
  | other (message : String)
deriving DecidableEq, Repr

/-- Embeds `os.Remove` over an abstract disk that is a list of existing
paths.  `failing` is the environment's choice of paths whose removal fails
for a reason other than non-existence (for example a permission error);
removing an absent path yields `fs.ErrNotExist`. -/
def osRemove (failing : String → Option String) (files : List String) (path : String) :
    List String × Option OSError :=
  if path ∈ files then
    match failing path with
    | some message => (files, some (OSError.other message))
    | none => (files.filter (fun q => q ≠ path), none)
  else (files, some OSError.notExist)

/-- Embeds `OperatingSystemFileSystem.Remove`: calls `os.Remove` and
swallows the error when it is `fs.ErrNotExist`. -/
def fileSystemRemove (failing : String → Option String) (files : List String) (path : String) :
    List String × Option OSError :=
  let r := osRemove failing files path
  match r.2 with
  | some OSError.notExist => (r.1, none)
  | e => (r.1, e)

/-! ## External command execution (`ExecutableRunner.Run`) -/

/-- Behaviour of the operating system when a process actually runs: the
process's exit error (if any) and what it writes to standard error. -/
structure ProcessBehavior where
  exitError : String → List String → Option String
  stderrOutput : String → List String → String

/-- The error `ExecutableRunner.Run` builds with
`fmt.Errorf("execute %s: %w: %s", executable, err, stderr)`. -/
structure RunFailure where
  executable : String
  cause : String
  stderr : String
deriving DecidableEq, Repr

/-- Embeds `exec.CommandContext` followed by `Cmd.Run` from Go's standard
library, whose documented behaviour is: when the supplied context is
already done before the command starts, `Run` returns the context's error
without starting any process.  Returns whether a process was started, the
error, and the captured standard error. -/
def execCommandRun (contextCancelled : Bool) (behavior : ProcessBehavior)
    (executable : String) (arguments : List String) :
    Bool × Option String × String :=
  if contextCancelled then (false, some "context canceled", "")
  else
    (true, behavior.exitError executable arguments,
      behavior.stderrOutput executable arguments)

/-- Embeds `ExecutableRunner.Run` from the `certificates` package: runs the
command and wraps a failure together with the captured standard error. -/
def executableRunnerRun (contextCancelled : Bool) (behavior : ProcessBehavior)
    (executable : String) (arguments : List String) :
    Bool × Except RunFailure Unit :=
  let r := execCommandRun contextCancelled behavior executable arguments
  match r.2.1 with
  | some e => (r.1, Except.error ⟨executable, e, r.2.2⟩)
  | none => (r.1, Except.ok ())

/-! ## HTTPS teardown (`cmd/ghttp/https_commands.go`, `runHTTPSUninstall`) -/

/-- The two error shapes `runHTTPSUninstall` can return: the wrapped
trust-store uninstall failure, or the `errors.Join` of the file-removal
failures. -/
inductive TeardownError
  | uninstallFailed (message : String)
  | removalsFailed (messages : List String)
deriving DecidableEq, Repr

/-- Environment of one `runHTTPSUninstall` call: the outcome of
`installer.Uninstall` and the outcome of `fileSystem.Remove` on each path
(after `Remove` has already swallowed not-exist errors). -/
structure TeardownEnvironment where
  uninstallError : Option String
  removeError : String → Option String

/-- The four removal targets of `runHTTPSUninstall`: the default root
certificate, root key, leaf certificate and leaf key files inside the
certificate directory. -/
def removalTargets (certificateDirectory : String) : List String :=
  [certificateDirectory ++ "/ca.pem",
   certificateDirectory ++ "/ca.key",
   certificateDirectory ++ "/localhost.pem",
   certificateDirectory ++ "/localhost.key"]

/-- The removal loop of `runHTTPSUninstall`: appends each failing
`fileSystem.Remove` error to the accumulated list. -/
def collectRemovalErrors (removeError : String → Option String) : List String → List String
  | [] => []
  | target :: rest =>
    match removeError target with
    | some e => e :: collectRemovalErrors removeError rest
    | none => collectRemovalErrors removeError rest

/-- Embeds `runHTTPSUninstall`: a trust-store uninstall failure returns at
once; otherwise the four target files are removed, errors are collected and
joined.  The second component records the paths on which
`fileSystem.Remove` was invoked. -/
def runHTTPSUninstall (environment : TeardownEnvironment) (certificateDirectory : String) :
    Option TeardownError × List String :=
  match environment.uninstallError with
  | some e => (some (TeardownError.uninstallFailed e), [])
  | none =>
    let targets := removalTargets certificateDirectory
    let removalErrors := collectRemovalErrors environment.removeError targets
    if removalErrors = [] then (none, targets)
    else (some (TeardownError.removalsFailed removalErrors), targets)

/-! ## Trust-store installers (`internal/certificates/truststore`) -/

/-- One external command invocation: executable and arguments. -/
structure CommandCall where
  executable : String
  arguments : List String
deriving DecidableEq, Repr

/-- Behaviour of the external commands: the error (if any) each command
returns when run. -/
def CommandBehavior := CommandCall → Option String

/-- Embeds `truststore.Configuration`. -/
structure TrustConfiguration where
  certificateCommonName : String
  macOSKeychainPath : String
  linuxCertificateDestinationPath : String
  linuxCertificateFilePermissions : Nat
  windowsCertificateStoreName : String
deriving DecidableEq, Repr

/-- Abstract disk used by the installers: paths associated with file
content and permission bits; the most recent write shadows older entries. -/
def Disk := List (String × String × Nat)

/-- `FileSystem.ReadFile`-style lookup on the abstract disk. -/
def diskLookup (disk : Disk) (path : String) : Option (String × Nat) :=
  match disk with
  | [] => none
  | (p, c) :: rest => if p = path then some c else diskLookup rest path

/-- `FileSystem.WriteFile`: overwrite the path with new content and
permissions. -/
def diskWrite (disk : Disk) (path content : String) (permissions : Nat) : Disk :=
  (path, content, permissions) :: disk

/-- `OperatingSystemFileSystem.Remove` on the abstract disk: deletes the
path; removing an absent path is not an error. -/
def diskRemove (disk : Disk) (path : String) : Disk :=
  disk.filter (fun e => e.1 ≠ path)

/-- Errors of the trust-store installers; `refreshFailed` is the
`errors.Join` of the refresh error and the fallback error. -/
inductive InstallerError
  | certificatePathRequired
  | readFailed (path : String)
  | commandFailed (step : String) (message : String)
  | refreshFailed (updateError : String) (fallbackError : String)
deriving DecidableEq, Repr

/-- The `security add-trusted-cert` invocation of `macOSInstaller.Install`. -/
def macOSAddTrustedCertCommand (configuration : TrustConfiguration)
    (certificatePath : String) : CommandCall :=
  ⟨"security", ["add-trusted-cert", "-d", "-r", "trustRoot", "-k",
    configuration.macOSKeychainPath, certificatePath]⟩

/-- The `security delete-certificate` invocation of
`macOSInstaller.Uninstall`. -/
def macOSDeleteCertificateCommand (configuration : TrustConfiguration) : CommandCall :=
  ⟨"security", ["delete-certificate", "-c", configuration.certificateCommonName,
    configuration.macOSKeychainPath]⟩

/-- Embeds `macOSInstaller.Install`; returns the commands invoked and the
result. -/
def macOSInstall (behavior : CommandBehavior) (configuration : TrustConfiguration)
    (certificatePath : String) : List CommandCall × Except InstallerError Unit :=
  if certificatePath = "" then ([], Except.error InstallerError.certificatePathRequired)
  else
    let call := macOSAddTrustedCertCommand configuration certificatePath
    match behavior call with
    | none => ([call], Except.ok ())
    | some e =>
      ([call], Except.error (InstallerError.commandFailed "install certificate in macos keychain" e))

/-- Embeds `macOSInstaller.Uninstall`. -/
def macOSUninstall (behavior : CommandBehavior) (configuration : TrustConfiguration) :
    List CommandCall × Except InstallerError Unit :=
  let call := macOSDeleteCertificateCommand configuration
  match behavior call with
  | none => ([call], Except.ok ())
  | some e =>
    ([call], Except.error (InstallerError.commandFailed "remove certificate from macos keychain" e))

/-- The distribution CA-bundle refresh invocation. -/
def updateCaCertificatesCommand : CommandCall := ⟨"update-ca-certificates", []⟩

/-- The fallback anchor-trust invocation of `linuxInstaller.Install`. -/
def trustAnchorCommand (configuration : TrustConfiguration) : CommandCall :=
  ⟨"trust", ["anchor", configuration.linuxCertificateDestinationPath]⟩

/-- The fallback anchor-removal invocation of `linuxInstaller.Uninstall`. -/
def trustAnchorRemoveCommand (configuration : TrustConfiguration) : CommandCall :=
  ⟨"trust", ["anchor", "--remove", configuration.linuxCertificateDestinationPath]⟩

/-- Embeds `linuxInstaller.Install`: read the source certificate, write its
bytes to the destination with the configured permissions, run the CA-bundle
refresh command and, only when it fails, the fallback anchor-trust command,
joining both errors when both fail. -/
def linuxInstall (behavior : CommandBehavior) (configuration : TrustConfiguration)
    (disk : Disk) (certificatePath : String) :
    Disk × List CommandCall × Except InstallerError Unit :=
  if certificatePath = "" then
    (disk, [], Except.error InstallerError.certificatePathRequired)
  else
    match diskLookup disk certificatePath with
    | none => (disk, [], Except.error (InstallerError.readFailed certificatePath))
    | some (content, _) =>
      let disk2 := diskWrite disk configuration.linuxCertificateDestinationPath content
        configuration.linuxCertificateFilePermissions
      match behavior updateCaCertificatesCommand with
      | none => (disk2, [updateCaCertificatesCommand], Except.ok ())
      | some updateError =>
        match behavior (trustAnchorCommand configuration) with
        | none => (disk2, [updateCaCertificatesCommand, trustAnchorCommand configuration],
            Except.ok ())
        | some trustError =>
          (disk2, [updateCaCertificatesCommand, trustAnchorCommand configuration],
            Except.error (InstallerError.refreshFailed updateError trustError))

/-- Embeds `linuxInstaller.Uninstall`: remove the copied certificate and
re-run the refresh (or fallback) command. -/
def linuxUninstall (behavior : CommandBehavior) (configuration : TrustConfiguration)
    (disk : Disk) : Disk × List CommandCall × Except InstallerError Unit :=
  let disk2 := diskRemove disk configuration.linuxCertificateDestinationPath
  match behavior updateCaCertificatesCommand with
  | none => (disk2, [updateCaCertificatesCommand], Except.ok ())
  | some updateError =>
    match behavior (trustAnchorRemoveCommand configuration) with
    | none => (disk2, [updateCaCertificatesCommand, trustAnchorRemoveCommand configuration],
        Except.ok ())
    | some trustError =>
      (disk2, [updateCaCertificatesCommand, trustAnchorRemoveCommand configuration],
        Except.error (InstallerError.refreshFailed updateError trustError))

theorem diskLookup_write_self (disk : Disk) (path content : String) (permissions : Nat) :
    diskLookup (diskWrite disk path content permissions) path = some (content, permissions) := by
  simp [diskWrite, diskLookup]

theorem diskLookup_remove_self (disk : Disk) (path : String) :
    diskLookup (diskRemove disk path) path = none := by
  induction disk with
  | nil => rfl
  | cons e rest ih =>
    obtain ⟨p, c⟩ := e
    by_cases hp : p = path
    · simpa [diskRemove, hp] using ih
    · simpa [diskRemove, diskLookup, hp] using ih

theorem collectRemovalErrors_eq (removeError : String → Option String) (targets : List String) :
    collectRemovalErrors removeError targets = targets.filterMap removeError := by
  induction targets with
  | nil => rfl
  | cons target rest ih =>
    simp only [collectRemovalErrors, List.filterMap_cons]
    cases removeError target <;> simp [ih]

/-- C10: `sanitizeHosts` trims surrounding whitespace from each entry, drops
entries that trim to the empty string, removes duplicates keeping only the
first occurrence while preserving the relative order of first occurrences,
and is idempotent. -/
theorem sanitizeHosts_spec (hosts : List String) :
    sanitizeHosts hosts =
      dedupKeepFirst ((hosts.map trimSpace).filter (fun x => x ≠ "")) ∧
    (∀ x ∈ sanitizeHosts hosts, trimSpace x = x ∧ x ≠ "") ∧
    (sanitizeHosts hosts).Nodup ∧
    sanitizeHosts (sanitizeHosts hosts) = sanitizeHosts hosts := by
  refine ⟨sanitizeHosts_eq hosts, ?_, ?_, sanitizeHosts_idem hosts⟩
  · intro x hx
    obtain ⟨h1, h2, _⟩ := (sanitizeHostsLoop_invariant hosts []).1 x hx
    exact ⟨h1, h2⟩
  · exact (sanitizeHostsLoop_invariant hosts []).2

/-- C9: `OperatingSystemFileSystem.Remove` succeeds when the path does not
exist, reports an error only for failures other than non-existence, and is
idempotent on both the resulting disk state and the reported outcome. -/
theorem fileSystemRemove_spec (failing : String → Option String)
    (files : List String) (path : String) :
    fileSystemRemove failing (fileSystemRemove failing files path).1 path =
      fileSystemRemove failing files path ∧
    (path ∉ files → fileSystemRemove failing files path = (files, none)) ∧
    (∀ e, (fileSystemRemove failing files path).2 = some e → e ≠ OSError.notExist) := by
  by_cases hmem : path ∈ files
  · cases hfail : failing path with
    | some message =>
      refine ⟨?_, fun h => absurd hmem h, ?_⟩
      · simp [fileSystemRemove, osRemove, hmem, hfail]
      · intro e he
        simp only [fileSystemRemove, osRemove, hmem, if_pos, hfail] at he
        simp only [Option.some_inj] at he
        subst he
        intro hcontra
        exact OSError.noConfusion hcontra
    | none =>
      have hgone : path ∉ files.filter (fun q => q ≠ path) := by
        simp [List.mem_filter]
      refine ⟨?_, fun h => absurd hmem h, ?_⟩
      · simp [fileSystemRemove, osRemove, hmem, hfail, hgone]
      · intro e he
        simp [fileSystemRemove, osRemove, hmem, hfail] at he
  · refine ⟨?_, fun _ => ?_, ?_⟩
    · simp [fileSystemRemove, osRemove, hmem]
    · simp [fileSystemRemove, osRemove, hmem]
    · intro e he
      simp [fileSystemRemove, osRemove, hmem] at he

theorem fileSystemRemove_spec_witness :
    ("b" ∈ (["a"] : List String) → False) ∧
      fileSystemRemove (fun _ => none) ["a"] "b" = (["a"], none) :=
  ⟨by decide, (fileSystemRemove_spec (fun _ => none) ["a"] "b").2.1 (by decide)⟩

/-- C8: when the supplied context is already cancelled before the command
starts, `ExecutableRunner.Run` fails immediately with the context error and
no operating-system process is started. -/
theorem executableRunnerRun_cancelled (behavior : ProcessBehavior)
    (executable : String) (arguments : List String) :
    executableRunnerRun true behavior executable arguments =
      (false, Except.error ⟨executable, "context canceled", ""⟩) := rfl

/-- C4 counterexample: with the trust-store uninstall failing and a file
removal that would also fail, `runHTTPSUninstall` returns only the wrapped
uninstall error and invokes no file removal at all, so the errors of the
later steps are not collected. -/
theorem runHTTPSUninstall_counterexample :
    runHTTPSUninstall
        ⟨some "trust store locked",
          fun path => if path = "certs/ca.pem" then some "permission denied" else none⟩
        "certs" =
      (some (TeardownError.uninstallFailed "trust store locked"), []) ∧
    (if "certs/ca.pem" = "certs/ca.pem" then some "permission denied" else none) =
      some "permission denied" := by
  constructor
  · rfl
  · rfl

/-- C4 amended: when the trust-store uninstall succeeds, `runHTTPSUninstall`
attempts all four file removals, collects the error of every failing
removal, and joins them into one combined error (it succeeds exactly when
every removal succeeds); but when the trust-store uninstall fails, that
error is returned immediately and no file removal is attempted. -/
theorem runHTTPSUninstall_amended (environment : TeardownEnvironment)
    (certificateDirectory : String) :
    (∀ e, environment.uninstallError = some e →
      runHTTPSUninstall environment certificateDirectory =
        (some (TeardownError.uninstallFailed e), [])) ∧
    (environment.uninstallError = none →
      (runHTTPSUninstall environment certificateDirectory).2 =
        removalTargets certificateDirectory ∧
      ((runHTTPSUninstall environment certificateDirectory).1 = none ↔
        ∀ target ∈ removalTargets certificateDirectory,
          environment.removeError target = none) ∧
      (∀ errorMessages,
        (runHTTPSUninstall environment certificateDirectory).1 =
          some (TeardownError.removalsFailed errorMessages) →
        errorMessages =
          (removalTargets certificateDirectory).filterMap environment.removeError)) := by
  constructor
  · intro e he
    simp [runHTTPSUninstall, he]
  · intro hnone
    simp only [runHTTPSUninstall, hnone, collectRemovalErrors_eq]
    by_cases hempty :
        (removalTargets certificateDirectory).filterMap environment.removeError = []
    · refine ⟨by simp [hempty], ?_, ?_⟩
      · simp only [hempty, if_pos]
        simpa using (List.filterMap_eq_nil_iff.mp hempty)
      · intro errorMessages hcontra
        simp [hempty] at hcontra
    · refine ⟨by simp [hempty], ?_, ?_⟩
      · simp only [hempty, if_neg, if_false]
        constructor
        · intro hcontra
          exact absurd hcontra (by simp)
        · intro hall
          exact absurd (List.filterMap_eq_nil_iff.mpr (by simpa using hall)) hempty
      · intro errorMessages hmsg
        simp only [hempty, if_neg, if_false, Option.some_inj] at hmsg
        cases hmsg
        rfl

theorem runHTTPSUninstall_amended_witness :
    (some "boom" : Option String) = some "boom" ∧
      runHTTPSUninstall ⟨some "boom", fun _ => none⟩ "certs" =
        (some (TeardownError.uninstallFailed "boom"), []) :=
  ⟨rfl, (runHTTPSUninstall_amended ⟨some "boom", fun _ => none⟩ "certs").1 "boom" rfl⟩

/-- C7: with a non-empty certificate path, a macOS-variant `Install`
followed by `Uninstall` invokes exactly two external commands, in order:
first one whose arguments contain `add-trusted-cert`, then one whose
arguments contain `delete-certificate`. -/
theorem macOSInstaller_two_commands (behavior : CommandBehavior)
    (configuration : TrustConfiguration) (certificatePath : String)
    (hpath : certificatePath ≠ "") :
    (macOSInstall behavior configuration certificatePath).1 ++
        (macOSUninstall behavior configuration).1 =
      [macOSAddTrustedCertCommand configuration certificatePath,
        macOSDeleteCertificateCommand configuration] ∧
    "add-trusted-cert" ∈ (macOSAddTrustedCertCommand configuration certificatePath).arguments ∧
    "delete-certificate" ∈ (macOSDeleteCertificateCommand configuration).arguments := by
  refine ⟨?_, ?_, ?_⟩
  · have h1 : (macOSInstall behavior configuration certificatePath).1 =
        [macOSAddTrustedCertCommand configuration certificatePath] := by
      simp only [macOSInstall, if_neg hpath]
      cases behavior (macOSAddTrustedCertCommand configuration certificatePath) <;> rfl
    have h2 : (macOSUninstall behavior configuration).1 =
        [macOSDeleteCertificateCommand configuration] := by
      simp only [macOSUninstall]
      cases behavior (macOSDeleteCertificateCommand configuration) <;> rfl
    rw [h1, h2]
    rfl
  · simp [macOSAddTrustedCertCommand]
  · simp [macOSDeleteCertificateCommand]

theorem macOSInstaller_two_commands_witness :
    ("/tmp/certificate.pem" ≠ "") ∧
      (macOSInstall (fun _ => none)
            ⟨"ghttp Development CA", "/Library/Keychains/System.keychain", "", 0, ""⟩
            "/tmp/certificate.pem").1 ++
          (macOSUninstall (fun _ => none)
            ⟨"ghttp Development CA", "/Library/Keychains/System.keychain", "", 0, ""⟩).1 =
        [macOSAddTrustedCertCommand
            ⟨"ghttp Development CA", "/Library/Keychains/System.keychain", "", 0, ""⟩
            "/tmp/certificate.pem",
          macOSDeleteCertificateCommand
            ⟨"ghttp Development CA", "/Library/Keychains/System.keychain", "", 0, ""⟩] :=
  ⟨by decide,
    (macOSInstaller_two_commands (fun _ => none)
      ⟨"ghttp Development CA", "/Library/Keychains/System.keychain", "", 0, ""⟩
      "/tmp/certificate.pem" (by decide)).1⟩

/-- C6: a Linux-variant `Install` writes exactly the source certificate
bytes to the destination with the configured permissions; `Uninstall` then
removes the destination so it no longer exists; `Install` invokes the
CA-bundle refresh command and, only when that command fails, the fallback
anchor-trust command, joining both errors when both fail. -/
theorem linuxInstaller_spec (behavior : CommandBehavior)
    (configuration : TrustConfiguration) (disk : Disk)
    (certificatePath content : String) (sourcePermissions : Nat)
    (hpath : certificatePath ≠ "")
    (hsource : diskLookup disk certificatePath = some (content, sourcePermissions)) :
    diskLookup (linuxInstall behavior configuration disk certificatePath).1
        configuration.linuxCertificateDestinationPath =
      some (content, configuration.linuxCertificateFilePermissions) ∧
    (behavior updateCaCertificatesCommand = none →
      (linuxInstall behavior configuration disk certificatePath).2.1 =
        [updateCaCertificatesCommand]) ∧
    (∀ updateError, behavior updateCaCertificatesCommand = some updateError →
      (linuxInstall behavior configuration disk certificatePath).2.1 =
        [updateCaCertificatesCommand, trustAnchorCommand configuration]) ∧
    (∀ updateError trustError,
      behavior updateCaCertificatesCommand = some updateError →
      behavior (trustAnchorCommand configuration) = some trustError →
      (linuxInstall behavior configuration disk certificatePath).2.2 =
        Except.error (InstallerError.refreshFailed updateError trustError)) ∧
    diskLookup
        (linuxUninstall behavior configuration
          (linuxInstall behavior configuration disk certificatePath).1).1
        configuration.linuxCertificateDestinationPath = none := by
  have hinstall1 : (linuxInstall behavior configuration disk certificatePath).1 =
      diskWrite disk configuration.linuxCertificateDestinationPath content
        configuration.linuxCertificateFilePermissions := by
    simp only [linuxInstall, if_neg hpath, hsource]
    cases behavior updateCaCertificatesCommand with
    | none => rfl
    | some updateError =>
      cases behavior (trustAnchorCommand configuration) <;> rfl
  have huninstall1 : ∀ d : Disk, (linuxUninstall behavior configuration d).1 =
      diskRemove d configuration.linuxCertificateDestinationPath := by
    intro d
    simp only [linuxUninstall]
    cases behavior updateCaCertificatesCommand with
    | none => rfl
    | some updateError =>
      cases behavior (trustAnchorRemoveCommand configuration) <;> rfl
  refine ⟨?_, ?_, ?_, ?_, ?_⟩
  · rw [hinstall1, diskLookup_write_self]
  · intro hupdate
    simp [linuxInstall, if_neg hpath, hsource, hupdate]
  · intro updateError hupdate
    simp only [linuxInstall, if_neg hpath, hsource, hupdate]
    cases behavior (trustAnchorCommand configuration) <;> rfl
  · intro updateError trustError hupdate htrust
    simp [linuxInstall, if_neg hpath, hsource, hupdate, htrust]
  · rw [huninstall1, hinstall1, diskLookup_remove_self]

theorem linuxInstaller_spec_witness :
    ("/certs/root_ca.pem" ≠ "") ∧
      diskLookup [("/certs/root_ca.pem", "certificate-data", 384)] "/certs/root_ca.pem" =
        some ("certificate-data", 384) ∧
      diskLookup
          (linuxInstall (fun _ => none) ⟨"", "", "/anchors/ghttp.crt", 420, ""⟩
            [("/certs/root_ca.pem", "certificate-data", 384)] "/certs/root_ca.pem").1
          "/anchors/ghttp.crt" =
        some ("certificate-data", 420) :=
  ⟨by decide, by decide,
    (linuxInstaller_spec (fun _ => none) ⟨"", "", "/anchors/ghttp.crt", 420, ""⟩
      [("/certs/root_ca.pem", "certificate-data", 384)] "/certs/root_ca.pem"
      "certificate-data" 384 (by decide) (by decide)).1⟩

/-- C1: when the certificate and key files exist, parse successfully, and
`now + renewalWindow < certificate.NotAfter`, calling
`EnsureCertificateAuthority` twice with no clock advance returns the parsed
material unchanged both times, with the same serial number, performing no
disk writes and consuming no randomness (the state, including the random
counter, is untouched by both calls). -/
theorem ensureCertificateAuthority_idempotent
    (configuration : CertificateAuthorityConfiguration) (now : Int)
    (state : CertificateAuthorityState) (certificate : Certificate) (privateKey : RSAKey)
    (hcert : state.certificateFile = some (some certificate))
    (hkey : state.privateKeyFile = some (some privateKey))
    (hfresh : now + configuration.certificateRenewalWindowDuration < certificate.notAfter) :
    EnsureCertificateAuthority configuration now state = (state, ⟨certificate, privateKey⟩) ∧
    EnsureCertificateAuthority configuration now
        (EnsureCertificateAuthority configuration now state).1 =
      (state, ⟨certificate, privateKey⟩) ∧
    (EnsureCertificateAuthority configuration now
        (EnsureCertificateAuthority configuration now state).1).2.certificate.serialNumber =
      (EnsureCertificateAuthority configuration now state).2.certificate.serialNumber := by
  have h1 : EnsureCertificateAuthority configuration now state =
      (state, ⟨certificate, privateKey⟩) := by
    unfold EnsureCertificateAuthority
    rw [hcert, hkey]
    simp [hfresh]
  exact ⟨h1, by rw [h1]; exact h1, by rw [h1]; rw [h1]⟩

theorem ensureCertificateAuthority_idempotent_witness :
    ((⟨some (some ⟨7, 0, 48, ⟨"ghttp Development CA", "ghttp", "temirov"⟩,
          ⟨"ghttp Development CA", "ghttp", "temirov"⟩, true, [], []⟩),
        some (some ⟨3, 2048⟩), true, 5⟩ :
        CertificateAuthorityState).certificateFile =
      some (some ⟨7, 0, 48, ⟨"ghttp Development CA", "ghttp", "temirov"⟩,
        ⟨"ghttp Development CA", "ghttp", "temirov"⟩, true, [], []⟩)) ∧
    ((0 : Int) + 12 < 48) ∧
    EnsureCertificateAuthority
        ⟨"certs", "root_ca.pem", "root_ca.key", 448, 384, 384, 2048, 48, 12,
          "ghttp Development CA", "ghttp", "temirov"⟩ 0
        ⟨some (some ⟨7, 0, 48, ⟨"ghttp Development CA", "ghttp", "temirov"⟩,
            ⟨"ghttp Development CA", "ghttp", "temirov"⟩, true, [], []⟩),
          some (some ⟨3, 2048⟩), true, 5⟩ =
      (⟨some (some ⟨7, 0, 48, ⟨"ghttp Development CA", "ghttp", "temirov"⟩,
            ⟨"ghttp Development CA", "ghttp", "temirov"⟩, true, [], []⟩),
          some (some ⟨3, 2048⟩), true, 5⟩,
        ⟨⟨7, 0, 48, ⟨"ghttp Development CA", "ghttp", "temirov"⟩,
            ⟨"ghttp Development CA", "ghttp", "temirov"⟩, true, [], []⟩, ⟨3, 2048⟩⟩) :=
  ⟨rfl, by decide,
    (ensureCertificateAuthority_idempotent
      ⟨"certs", "root_ca.pem", "root_ca.key", 448, 384, 384, 2048, 48, 12,
        "ghttp Development CA", "ghttp", "temirov"⟩ 0
      ⟨some (some ⟨7, 0, 48, ⟨"ghttp Development CA", "ghttp", "temirov"⟩,
          ⟨"ghttp Development CA", "ghttp", "temirov"⟩, true, [], []⟩),
        some (some ⟨3, 2048⟩), true, 5⟩
      ⟨7, 0, 48, ⟨"ghttp Development CA", "ghttp", "temirov"⟩,
        ⟨"ghttp Development CA", "ghttp", "temirov"⟩, true, [], []⟩
      ⟨3, 2048⟩ rfl rfl (by decide)).1⟩

/-- C2: starting with no certificate-authority files, a first
`EnsureCertificateAuthority` call creates the certificate authority, and a
second call after the clock advances by
`validityDuration − renewalWindow + ε` (with `ε > 0`) regenerates it: the
new certificate has a different serial number, `NotBefore` equal to the
current clock time, and `NotAfter` equal to that time plus the configured
validity duration. -/
theorem ensureCertificateAuthority_rotates
    (configuration : CertificateAuthorityConfiguration)
    (initialTime epsilon : Int) (state : CertificateAuthorityState)
    (hmissing : state.certificateFile = none)
    (heps : 0 < epsilon) :
    (EnsureCertificateAuthority configuration
        (initialTime + configuration.certificateValidityDuration -
          configuration.certificateRenewalWindowDuration + epsilon)
        (EnsureCertificateAuthority configuration initialTime state).1).2.certificate.serialNumber ≠
      (EnsureCertificateAuthority configuration initialTime state).2.certificate.serialNumber ∧
    (EnsureCertificateAuthority configuration
        (initialTime + configuration.certificateValidityDuration -
          configuration.certificateRenewalWindowDuration + epsilon)
        (EnsureCertificateAuthority configuration initialTime state).1).2.certificate.notBefore =
      initialTime + configuration.certificateValidityDuration -
        configuration.certificateRenewalWindowDuration + epsilon ∧
    (EnsureCertificateAuthority configuration
        (initialTime + configuration.certificateValidityDuration -
          configuration.certificateRenewalWindowDuration + epsilon)
        (EnsureCertificateAuthority configuration initialTime state).1).2.certificate.notAfter =
      (initialTime + configuration.certificateValidityDuration -
        configuration.certificateRenewalWindowDuration + epsilon) +
        configuration.certificateValidityDuration := by
  have h1 : EnsureCertificateAuthority configuration initialTime state =
      regenerateCertificateAuthority configuration initialTime state := by
    unfold EnsureCertificateAuthority
    rw [hmissing]
  have hstale : ¬ (initialTime + configuration.certificateValidityDuration -
      configuration.certificateRenewalWindowDuration + epsilon +
      configuration.certificateRenewalWindowDuration <
      initialTime + configuration.certificateValidityDuration) := by omega
  rw [h1]
  unfold regenerateCertificateAuthority EnsureCertificateAuthority
  simp only [hstale, if_false]
  refine ⟨?_, rfl, rfl⟩
  unfold regenerateCertificateAuthority
  simp only []
  omega

theorem ensureCertificateAuthority_rotates_witness :
    ((⟨none, none, false, 0⟩ : CertificateAuthorityState).certificateFile = none) ∧
    ((0 : Int) < 1) ∧
    (EnsureCertificateAuthority
        ⟨"certs", "root_ca.pem", "root_ca.key", 448, 384, 384, 2048, 36, 6,
          "ghttp Development CA", "ghttp", "temirov"⟩
        ((0 : Int) + 36 - 6 + 1)
        (EnsureCertificateAuthority
          ⟨"certs", "root_ca.pem", "root_ca.key", 448, 384, 384, 2048, 36, 6,
            "ghttp Development CA", "ghttp", "temirov"⟩ 0
          ⟨none, none, false, 0⟩).1).2.certificate.serialNumber ≠
      (EnsureCertificateAuthority
        ⟨"certs", "root_ca.pem", "root_ca.key", 448, 384, 384, 2048, 36, 6,
          "ghttp Development CA", "ghttp", "temirov"⟩ 0
        ⟨none, none, false, 0⟩).2.certificate.serialNumber :=
  ⟨rfl, by decide,
    (ensureCertificateAuthority_rotates
      ⟨"certs", "root_ca.pem", "root_ca.key", 448, 384, 384, 2048, 36, 6,
        "ghttp Development CA", "ghttp", "temirov"⟩ 0 1
      ⟨none, none, false, 0⟩ rfl (by decide)).1⟩

theorem generateServerCertificate_files (configuration : ServerCertificateConfiguration)
    (now : Int) (certificateAuthority : CertificateAuthorityMaterial)
    (request : ServerCertificateRequest) (state : ServerCertificateState) :
    (generateServerCertificate configuration now certificateAuthority request
        state).1.certificateFile =
      some (some (generateServerCertificate configuration now certificateAuthority request
        state).2.certificate) ∧
    (generateServerCertificate configuration now certificateAuthority request
        state).1.privateKeyFile =
      some (some (generateServerCertificate configuration now certificateAuthority request
        state).2.privateKey) :=
  ⟨rfl, rfl⟩

/-- C3 counterexample: a stored, unexpired leaf certificate whose only DNS
SAN is `LOCALHOST` is reused for the request host set `localhost` (the
spec's host comparison is case-insensitive), so the certificate returned by
`IssueServerCertificate` has SAN set `LOCALHOST`, which is not exactly the
request's host set. -/
theorem issueServerCertificate_counterexample :
    IssueServerCertificate ⟨72, 6, 2048, 384, 384⟩ 0
        ⟨⟨1, 0, 1000, ⟨"ghttp Development CA", "ghttp", "temirov"⟩,
            ⟨"ghttp Development CA", "ghttp", "temirov"⟩, true, [], []⟩, ⟨0, 4096⟩⟩
        ⟨["localhost"], "leaf.pem", "leaf.key"⟩
        ⟨some (some ⟨7, 0, 1000, ⟨"", "", ""⟩,
            ⟨"ghttp Development CA", "ghttp", "temirov"⟩, false, ["LOCALHOST"], []⟩),
          some (some ⟨5, 2048⟩), 10⟩ =
      Except.ok
        (⟨some (some ⟨7, 0, 1000, ⟨"", "", ""⟩,
              ⟨"ghttp Development CA", "ghttp", "temirov"⟩, false, ["LOCALHOST"], []⟩),
            some (some ⟨5, 2048⟩), 10⟩,
          ⟨⟨7, 0, 1000, ⟨"", "", ""⟩, ⟨"ghttp Development CA", "ghttp", "temirov"⟩,
            false, ["LOCALHOST"], []⟩, ⟨5, 2048⟩⟩) ∧
    certificateSanHosts
        ⟨7, 0, 1000, ⟨"", "", ""⟩, ⟨"ghttp Development CA", "ghttp", "temirov"⟩,
          false, ["LOCALHOST"], []⟩ = ["LOCALHOST"] ∧
    "localhost" ∉ certificateSanHosts
        ⟨7, 0, 1000, ⟨"", "", ""⟩, ⟨"ghttp Development CA", "ghttp", "temirov"⟩,
          false, ["LOCALHOST"], []⟩ := by
  refine ⟨rfl, rfl, by decide⟩

/-- C3 amended: for every non-empty request host set,
`IssueServerCertificate` succeeds and either reuses the stored certificate
— returning it and the stored key unchanged with no writes, its SAN set
equal to the request's host set up to normalization (lower-casing of DNS
names) — or generates a fresh certificate whose issuer is exactly the
supplied CA material's subject and whose SAN set is exactly the request's
host set, with every syntactically valid IPv4/IPv6 literal in the
IP-address SAN list and every other host in the DNS-name SAN list. -/
theorem issueServerCertificate_amended (configuration : ServerCertificateConfiguration)
    (now : Int) (certificateAuthority : CertificateAuthorityMaterial)
    (request : ServerCertificateRequest) (state : ServerCertificateState)
    (hne : request.hosts ≠ []) :
    ∃ newState material,
      IssueServerCertificate configuration now certificateAuthority request state =
        Except.ok (newState, material) ∧
      ((newState = state ∧
        (∃ certificate privateKey,
          state.certificateFile = some (some certificate) ∧
          state.privateKeyFile = some (some privateKey) ∧
          material = ⟨certificate, privateKey⟩) ∧
        hostSetsEqual (certificateSanHosts material.certificate) request.hosts = true) ∨
      (material.certificate.issuerSubject = certificateAuthority.certificate.subject ∧
        material.certificate.dnsNames = request.hosts.filter (fun h => !(isIPLiteral h)) ∧
        material.certificate.ipAddresses = request.hosts.filter isIPLiteral ∧
        (certificateSanHosts material.certificate).Perm request.hosts ∧
        material.certificate.notBefore = now ∧
        material.certificate.notAfter = now + configuration.certificateValidityDuration)) := by
  have hempty : request.hosts.isEmpty = false := by
    cases h : request.hosts with
    | nil => exact absurd h hne
    | cons a t => rfl
  have hgen : ∀ result :
      ServerCertificateState × ServerCertificateMaterial,
      result = generateServerCertificate configuration now certificateAuthority request state →
      (result.2.certificate.issuerSubject = certificateAuthority.certificate.subject ∧
        result.2.certificate.dnsNames = request.hosts.filter (fun h => !(isIPLiteral h)) ∧
        result.2.certificate.ipAddresses = request.hosts.filter isIPLiteral ∧
        (certificateSanHosts result.2.certificate).Perm request.hosts ∧
        result.2.certificate.notBefore = now ∧
        result.2.certificate.notAfter = now + configuration.certificateValidityDuration) := by
    intro result hresult
    subst hresult
    exact ⟨rfl, rfl, rfl,
      sanHosts_generate_perm configuration now certificateAuthority request state, rfl, rfl⟩
  cases hcf : state.certificateFile with
  | none =>
    refine ⟨(generateServerCertificate configuration now certificateAuthority request state).1,
      (generateServerCertificate configuration now certificateAuthority request state).2,
      ?_, Or.inr (hgen _ rfl)⟩
    simp [IssueServerCertificate, hempty, hcf]
  | some optionCertificate =>
    cases optionCertificate with
    | none =>
      refine ⟨(generateServerCertificate configuration now certificateAuthority request state).1,
        (generateServerCertificate configuration now certificateAuthority request state).2,
        ?_, Or.inr (hgen _ rfl)⟩
      simp [IssueServerCertificate, hempty, hcf]
    | some certificate =>
      cases hkf : state.privateKeyFile with
      | none =>
        refine ⟨(generateServerCertificate configuration now certificateAuthority request state).1,
          (generateServerCertificate configuration now certificateAuthority request state).2,
          ?_, Or.inr (hgen _ rfl)⟩
        simp [IssueServerCertificate, hempty, hcf, hkf]
      | some optionKey =>
        cases optionKey with
        | none =>
          refine ⟨(generateServerCertificate configuration now certificateAuthority request state).1,
            (generateServerCertificate configuration now certificateAuthority request state).2,
            ?_, Or.inr (hgen _ rfl)⟩
          simp [IssueServerCertificate, hempty, hcf, hkf]
        | some privateKey =>
          by_cases hcond :
              (hostSetsEqual (certificateSanHosts certificate) request.hosts &&
                decide (now + configuration.certificateRenewalWindowDuration <
                  certificate.notAfter)) = true
          · have hsanEq : hostSetsEqual (certificateSanHosts certificate) request.hosts = true := by
              have hc := hcond
              simp only [Bool.and_eq_true] at hc
              exact hc.1
            refine ⟨state, ⟨certificate, privateKey⟩, ?_,
              Or.inl ⟨rfl, ⟨certificate, privateKey, rfl, rfl, rfl⟩, hsanEq⟩⟩
            simp [IssueServerCertificate, hempty, hcf, hkf, hcond]
          · refine ⟨(generateServerCertificate configuration now certificateAuthority request state).1,
              (generateServerCertificate configuration now certificateAuthority request state).2,
              ?_, Or.inr (hgen _ rfl)⟩
            simp only [IssueServerCertificate, hempty, Bool.false_eq_true, if_false, hcf, hkf]
            rw [if_neg]
            intro hcontra
            exact hcond hcontra

theorem issueServerCertificate_amended_witness :
    ((["localhost", "127.0.0.1"] : List String) ≠ []) ∧
      (∃ newState material,
        IssueServerCertificate ⟨72, 6, 2048, 384, 384⟩ 0
            ⟨⟨1, 0, 1000, ⟨"ghttp Development CA", "ghttp", "temirov"⟩,
                ⟨"ghttp Development CA", "ghttp", "temirov"⟩, true, [], []⟩, ⟨0, 4096⟩⟩
            ⟨["localhost", "127.0.0.1"], "leaf.pem", "leaf.key"⟩ ⟨none, none, 0⟩ =
          Except.ok (newState, material) ∧
        ((newState = (⟨none, none, 0⟩ : ServerCertificateState) ∧
          (∃ certificate privateKey,
            (⟨none, none, 0⟩ : ServerCertificateState).certificateFile =
              some (some certificate) ∧
            (⟨none, none, 0⟩ : ServerCertificateState).privateKeyFile =
              some (some privateKey) ∧
            material = ⟨certificate, privateKey⟩) ∧
          hostSetsEqual (certificateSanHosts material.certificate)
            ["localhost", "127.0.0.1"] = true) ∨
        (material.certificate.issuerSubject =
            (⟨"ghttp Development CA", "ghttp", "temirov"⟩ : Subject) ∧
          material.certificate.dnsNames =
            (["localhost", "127.0.0.1"] : List String).filter (fun h => !(isIPLiteral h)) ∧
          material.certificate.ipAddresses =
            (["localhost", "127.0.0.1"] : List String).filter isIPLiteral ∧
          (certificateSanHosts material.certificate).Perm ["localhost", "127.0.0.1"] ∧
          material.certificate.notBefore = 0 ∧
          material.certificate.notAfter = 0 + 72))) :=
  ⟨by decide,
    issueServerCertificate_amended ⟨72, 6, 2048, 384, 384⟩ 0
      ⟨⟨1, 0, 1000, ⟨"ghttp Development CA", "ghttp", "temirov"⟩,
          ⟨"ghttp Development CA", "ghttp", "temirov"⟩, true, [], []⟩, ⟨0, 4096⟩⟩
      ⟨["localhost", "127.0.0.1"], "leaf.pem", "leaf.key"⟩ ⟨none, none, 0⟩ (by decide)⟩

/-- C5: issuing a leaf certificate and then calling
`IssueServerCertificate` again with the same host set after a clock advance
smaller than the renewal threshold reuses the certificate: the second call
returns exactly the first call's state and material — identical serial
number, no file writes, no randomness consumed. -/
theorem issueServerCertificate_reuse (configuration : ServerCertificateConfiguration)
    (certificateAuthority secondCertificateAuthority : CertificateAuthorityMaterial)
    (request : ServerCertificateRequest) (state : ServerCertificateState)
    (now laterTime : Int)
    (hne : request.hosts ≠ [])
    (hmissing : state.certificateFile = none)
    (hfresh : laterTime + configuration.certificateRenewalWindowDuration <
      now + configuration.certificateValidityDuration) :
    IssueServerCertificate configuration now certificateAuthority request state =
      Except.ok (generateServerCertificate configuration now certificateAuthority request
        state) ∧
    IssueServerCertificate configuration laterTime secondCertificateAuthority request
        (generateServerCertificate configuration now certificateAuthority request state).1 =
      Except.ok (generateServerCertificate configuration now certificateAuthority request
        state) := by
  have hempty : request.hosts.isEmpty = false := by
    cases h : request.hosts with
    | nil => exact absurd h hne
    | cons a t => rfl
  constructor
  · simp [IssueServerCertificate, hempty, hmissing]
  · have hsan : hostSetsEqual
        (certificateSanHosts (generateServerCertificate configuration now certificateAuthority
          request state).2.certificate) request.hosts = true :=
      hostSetsEqual_of_perm _ _
        (sanHosts_generate_perm configuration now certificateAuthority request state)
    have hnotAfter : (generateServerCertificate configuration now certificateAuthority request
        state).2.certificate.notAfter = now + configuration.certificateValidityDuration := rfl
    simp only [IssueServerCertificate, hempty, Bool.false_eq_true, if_false,
      (generateServerCertificate_files configuration now certificateAuthority request state).1,
      (generateServerCertificate_files configuration now certificateAuthority request state).2]
    rw [if_pos]
    rw [hsan, hnotAfter]
    simp [hfresh]

theorem issueServerCertificate_reuse_witness :
    ((["localhost", "127.0.0.1"] : List String) ≠ []) ∧
      ((⟨none, none, 0⟩ : ServerCertificateState).certificateFile = none) ∧
      ((24 : Int) + 12 < 0 + 120) ∧
      IssueServerCertificate ⟨120, 12, 2048, 384, 384⟩ 24
          ⟨⟨1, 0, 1000, ⟨"ghttp Development CA", "ghttp", "temirov"⟩,
              ⟨"ghttp Development CA", "ghttp", "temirov"⟩, true, [], []⟩, ⟨0, 4096⟩⟩
          ⟨["localhost", "127.0.0.1"], "leaf.pem", "leaf.key"⟩
          (generateServerCertificate ⟨120, 12, 2048, 384, 384⟩ 0
            ⟨⟨1, 0, 1000, ⟨"ghttp Development CA", "ghttp", "temirov"⟩,
                ⟨"ghttp Development CA", "ghttp", "temirov"⟩, true, [], []⟩, ⟨0, 4096⟩⟩
            ⟨["localhost", "127.0.0.1"], "leaf.pem", "leaf.key"⟩ ⟨none, none, 0⟩).1 =
        Except.ok (generateServerCertificate ⟨120, 12, 2048, 384, 384⟩ 0
          ⟨⟨1, 0, 1000, ⟨"ghttp Development CA", "ghttp", "temirov"⟩,
              ⟨"ghttp Development CA", "ghttp", "temirov"⟩, true, [], []⟩, ⟨0, 4096⟩⟩
          ⟨["localhost", "127.0.0.1"], "leaf.pem", "leaf.key"⟩ ⟨none, none, 0⟩) :=
  ⟨by decide, rfl, by decide,
    (issueServerCertificate_reuse ⟨120, 12, 2048, 384, 384⟩
      ⟨⟨1, 0, 1000, ⟨"ghttp Development CA", "ghttp", "temirov"⟩,
          ⟨"ghttp Development CA", "ghttp", "temirov"⟩, true, [], []⟩, ⟨0, 4096⟩⟩
      ⟨⟨1, 0, 1000, ⟨"ghttp Development CA", "ghttp", "temirov"⟩,
          ⟨"ghttp Development CA", "ghttp", "temirov"⟩, true, [], []⟩, ⟨0, 4096⟩⟩
      ⟨["localhost", "127.0.0.1"], "leaf.pem", "leaf.key"⟩ ⟨none, none, 0⟩ 0 24
      (by decide) rfl (by decide)).2⟩

end Ghttp
